import Mathlib

/-!
Verification of the voice-typing assistant core (`voice_typing.py`):
the hotkey-matching engine, the edge-triggered toggle tracker, the
recording/silence-detection state machine, and the transcript
post-processing hand-off.

Machine reals (Python floats used for timestamps and durations) are
modelled as rationals; PCM samples after the 16-bit conversion are
modelled as integers; the pressed-key set is modelled as a duplicate-free
list updated with `List.insert` / `List.erase`.
-/

namespace VoiceTyping

/-- The pynput named keys (`Key.*` values) referenced by the hotkey maps
in `is_hotkey_pressed` and by the release handler. `Key.end` is rendered
as `end'` because `end` is a reserved word. -/
inductive MKey
  | ctrl_l | ctrl_r | alt_l | alt_r | shift_l | shift_r | cmd_l | cmd_r
  | space | enter | tab | esc | backspace | delete
  | up | down | left | right | home | end' | page_up | page_down | insert
  | f1 | f2 | f3 | f4 | f5 | f6 | f7 | f8 | f9 | f10 | f11 | f12
  deriving DecidableEq

/-- A raw key identifier as delivered by pynput: either a named `Key`
value or a `KeyCode`, whose `char` attribute may be absent (`None`). -/
inductive PKey
  | named : MKey → PKey
  | keyCode : Option Char → PKey
  deriving DecidableEq

/-- The `modifier_map` dictionary of `is_hotkey_pressed`: modifier token →
tuple of concrete side variants. -/
def modifier_map : String → Option (List MKey)
  | "ctrl" => some [.ctrl_l, .ctrl_r]
  | "control" => some [.ctrl_l, .ctrl_r]
  | "alt" => some [.alt_l, .alt_r]
  | "shift" => some [.shift_l, .shift_r]
  | "shift_l" => some [.shift_l]
  | "shift_r" => some [.shift_r]
  | "ctrl_l" => some [.ctrl_l]
  | "ctrl_r" => some [.ctrl_r]
  | "alt_l" => some [.alt_l]
  | "alt_r" => some [.alt_r]
  | "cmd" => some [.cmd_l, .cmd_r]
  | "cmd_l" => some [.cmd_l]
  | "cmd_r" => some [.cmd_r]
  | _ => none

/-- The `special_key_map` dictionary of `is_hotkey_pressed`: special key
name → `Key` value. -/
def special_key_map : String → Option MKey
  | "space" => some .space
  | "enter" => some .enter
  | "tab" => some .tab
  | "esc" => some .esc
  | "escape" => some .esc
  | "backspace" => some .backspace
  | "delete" => some .delete
  | "up" => some .up
  | "down" => some .down
  | "left" => some .left
  | "right" => some .right
  | "home" => some .home
  | "end" => some .end'
  | "page_up" => some .page_up
  | "page_down" => some .page_down
  | "insert" => some .insert
  | "f1" => some .f1
  | "f2" => some .f2
  | "f3" => some .f3
  | "f4" => some .f4
  | "f5" => some .f5
  | "f6" => some .f6
  | "f7" => some .f7
  | "f8" => some .f8
  | "f9" => some .f9
  | "f10" => some .f10
  | "f11" => some .f11
  | "f12" => some .f12
  | _ => none

/-- The loop body of `is_hotkey_pressed` for a single-character token:
`any(isinstance(key, KeyCode) and key.char == part for key in pressed_keys)`.
A `KeyCode` with `char == None` never matches (`None == part` is false). -/
def char_key_pressed (pressed : List PKey) (part : String) : Bool :=
  pressed.any fun k =>
    match k with
    | PKey.keyCode (some c) => String.mk [c] == part
    | _ => false

/-- The token loop of `is_hotkey_pressed`, over an already-parsed token
list. Returns the boolean result together with the list of tokens for
which the `Warning: Unknown key` message is printed during this call
(the second component models the surfaced configuration warnings). -/
def is_hotkey_pressed_core : List String → List PKey → Bool × List String
  | [], _ => (true, [])
  | part :: rest, pressed =>
    match modifier_map part with
    | some mods =>
      if mods.any fun k => pressed.contains (PKey.named k) then
        is_hotkey_pressed_core rest pressed
      else (false, [])
    | none =>
      match special_key_map part with
      | some k =>
        if pressed.contains (PKey.named k) then
          is_hotkey_pressed_core rest pressed
        else (false, [])
      | none =>
        if part.length == 1 then
          if char_key_pressed pressed part then
            is_hotkey_pressed_core rest pressed
          else (false, [])
        else (false, [part])

/-- Python `str.split('+')`: split on every occurrence of `+`, keeping
empty pieces. Structural over the character list (Lean's own `splitOn`
is defined by well-founded recursion and does not reduce in the
kernel). -/
def split_plus : List Char → List (List Char)
  | [] => [[]]
  | c :: cs =>
    if c == '+' then [] :: split_plus cs
    else
      match split_plus cs with
      | g :: gs => (c :: g) :: gs
      | [] => [[c]]

/-- Python `str.strip()`: remove leading and trailing whitespace. -/
def py_strip (s : String) : String :=
  String.mk ((s.data.dropWhile Char.isWhitespace).reverse.dropWhile Char.isWhitespace).reverse

/-- Python `str.lower()` (ASCII, which is all the hotkey tokens and
transcripts exercised here use). -/
def py_lower (s : String) : String :=
  String.mk (s.data.map Char.toLower)

/-- The `parse_hotkey` method: split the configured hotkey string on `+`,
strip whitespace and lowercase each token. -/
def parse_hotkey (hotkey_str : String) : List String :=
  (split_plus hotkey_str.data).map fun p => py_lower (py_strip (String.mk p))

/-- The `is_hotkey_pressed` method applied to a given pressed-key set. -/
def is_hotkey_pressed (hotkey_str : String) (pressed : List PKey) : Bool × List String :=
  is_hotkey_pressed_core (parse_hotkey hotkey_str) pressed

/-- A token is valid when it is a recognized modifier, a recognized
special key name, or a single character. -/
def token_valid (part : String) : Bool :=
  (modifier_map part).isSome || (special_key_map part).isSome || (part.length == 1)

/-- The per-token satisfaction condition as described by the spec: a
modifier token is satisfied by any of its concrete side variants, a
special key by its exact identifier, and any other token by a pressed
key carrying that character. -/
def token_satisfied (part : String) (pressed : List PKey) : Bool :=
  match modifier_map part with
  | some mods => mods.any fun k => pressed.contains (PKey.named k)
  | none =>
    match special_key_map part with
    | some k => pressed.contains (PKey.named k)
    | none => char_key_pressed pressed part

/-- A key press/release event as delivered by the pynput listener. -/
inductive KeyEvent
  | press : PKey → KeyEvent
  | release : PKey → KeyEvent
  deriving DecidableEq

/-- The mutable state touched by the `on_press` / `on_release` handlers:
the set of currently pressed keys (`self.pressed_keys`) and the one-shot
edge flag (`self.hotkey_pressed`). -/
structure TrackerState where
  pressed_keys : List PKey
  hotkey_pressed : Bool
  deriving DecidableEq

/-- The released key is a concrete ctrl variant
(`key == Key.ctrl_l or key == Key.ctrl_r`). -/
def is_ctrl_variant (k : PKey) : Bool :=
  k == PKey.named MKey.ctrl_l || k == PKey.named MKey.ctrl_r

/-- An event is the release of a concrete ctrl variant. -/
def is_ctrl_release : KeyEvent → Bool
  | KeyEvent.release k => is_ctrl_variant k
  | _ => false

/-- One step of the key-event handlers, for a fixed parsed hotkey.
`on_press`: add the key to the set; if the hotkey now matches and the
edge is not armed, arm it and invoke `toggle_recording` (the returned
boolean records that invocation — the toggle edge firing).
`on_release`: remove the key; if it is a concrete ctrl variant, disarm
the edge. A release never fires the toggle. -/
def stepTracker (hotkey : List String) (s : TrackerState) : KeyEvent → TrackerState × Bool
  | KeyEvent.press k =>
    let pks := s.pressed_keys.insert k
    if (is_hotkey_pressed_core hotkey pks).1 && !s.hotkey_pressed then
      ({ pressed_keys := pks, hotkey_pressed := true }, true)
    else
      ({ s with pressed_keys := pks }, false)
  | KeyEvent.release k =>
    let pks := s.pressed_keys.erase k
    if is_ctrl_variant k then
      ({ pressed_keys := pks, hotkey_pressed := false }, false)
    else
      ({ s with pressed_keys := pks }, false)

/-- The per-event toggle firings produced by a sequence of key events. -/
def runFlags (hotkey : List String) (s : TrackerState) : List KeyEvent → List Bool
  | [] => []
  | e :: es => (stepTracker hotkey s e).2 :: runFlags hotkey (stepTracker hotkey s e).1 es

/-- The tracker state after a sequence of key events. -/
def trackState (hotkey : List String) : TrackerState → List KeyEvent → TrackerState
  | s, [] => s
  | s, e :: es => trackState hotkey (stepTracker hotkey s e).1 es

/-- One PCM block after the 16-bit conversion performed in the audio
callback (`(indata.flatten() * 32768).astype(np.int16)`). -/
abbrev Frame := List ℤ

/-- The configuration fields read by the recording session. -/
structure Config where
  SILENCE_THRESHOLD : ℤ
  SILENCE_DURATION : ℚ
  deriving DecidableEq

/-- numpy's absolute value on an int16 array is dtype-preserving: the
mathematical absolute value wrapped back into int16 range, which maps
the full-scale negative sample -32768 to -32768 and is the identity on
every other int16 value. The sample -32768 is reachable from the
callback: `indata = -1.0` scales to exactly -32768 under
`(indata * 32768).astype(np.int16)`. -/
def int16_abs (x : ℤ) : ℤ :=
  (|x| + 32768) % 65536 - 32768

/-- The quantity `np.abs(audio_data).mean()` computed by the code on the
int16 array, as an exact rational: the mean of the int16-wrapped
absolute values of the samples. -/
def mean_abs (samples : Frame) : ℚ :=
  ((samples.map int16_abs).sum : ℚ) / (samples.length : ℚ)

/-- The mean absolute amplitude in the claim's sense: exact (unwrapped)
absolute values. Stated from the spec's words, for comparison against
the computed `mean_abs`. -/
def true_mean_abs (samples : Frame) : ℚ :=
  ((samples.map fun x => |x|).sum : ℚ) / (samples.length : ℚ)

/-- The `is_silent` method: mean absolute amplitude strictly below the
configured threshold. numpy's mean of an empty array is NaN and every
comparison against NaN is false, hence the empty-frame guard. -/
def is_silent (threshold : ℤ) (samples : Frame) : Bool :=
  if samples.isEmpty then false
  else decide (mean_abs samples < (threshold : ℚ))

/-- The mutable recording-session fields of the assistant object. -/
structure AsstState where
  is_recording : Bool
  audio_frames : List Frame
  recording_start_time : Option ℚ
  silence_start_time : Option ℚ
  has_detected_speech : Bool
  should_transcribe : Bool
  deriving DecidableEq

/-- The `audio_callback` method at time `now`. When recording, the frame
is appended and classified; a silent frame either starts the silence
timer (only once speech has been detected), completes the silence
countdown, or does nothing; a non-silent frame clears the timer and
marks speech as detected. When not recording, the callback does nothing.
The Python `if`/`elif` pair both require `has_detected_speech`, and the
`elif` can only run with the timer set (the first condition having
failed with speech detected), which the nested match renders directly. -/
def audio_callback (cfg : Config) (now : ℚ) (s : AsstState) (indata : Frame) : AsstState :=
  if s.is_recording then
    let s1 := { s with audio_frames := s.audio_frames ++ [indata] }
    if is_silent cfg.SILENCE_THRESHOLD indata then
      if s1.has_detected_speech then
        match s1.silence_start_time with
        | none => { s1 with silence_start_time := some now }
        | some t0 =>
          if cfg.SILENCE_DURATION ≤ now - t0 then
            { s1 with should_transcribe := true, is_recording := false }
          else s1
      else s1
    else
      { s1 with silence_start_time := none, has_detected_speech := true }
  else s

/-- The session state after a sequence of (frame, arrival-time) pairs. -/
def run_callbacks (cfg : Config) (s : AsstState) (frames : List (Frame × ℚ)) : AsstState :=
  frames.foldl (fun st p => audio_callback cfg p.2 st p.1) s

/-- The `start_recording` method at time `now` (stream handling is I/O
and not modelled): flip to recording and reset the buffer and the
silence tracker. Note that `should_transcribe` is not touched. -/
def start_recording (now : ℚ) (s : AsstState) : AsstState :=
  { s with
    is_recording := true
    audio_frames := []
    recording_start_time := some now
    silence_start_time := none
    has_detected_speech := false }

/-- The `stop_recording_and_transcribe` method: a no-op unless recording,
otherwise it only clears `is_recording`. -/
def stop_recording_and_transcribe (s : AsstState) : AsstState :=
  if !s.is_recording then s
  else { s with is_recording := false }

/-- The `toggle_recording` method. -/
def toggle_recording (now : ℚ) (s : AsstState) : AsstState :=
  if !s.is_recording then start_recording now s
  else stop_recording_and_transcribe s

/-- One iteration of the transcription-dispatch part of the `run` loop:
if `should_transcribe` is set, clear it and, when the buffer is
non-empty, hand the buffer to `transcribe_and_type`. The second
component is the buffer handed to the transcription step, or `none`
when no transcription happens this iteration. -/
def loop_iteration (s : AsstState) : AsstState × Option (List Frame) :=
  if s.should_transcribe then
    let s1 := { s with should_transcribe := false }
    if s1.audio_frames.isEmpty then (s1, none) else (s1, some s1.audio_frames)
  else (s, none)

/-- Characters removed from the end of the transcript
(`text[-1] in ".,;:"`). -/
def is_trailing_punct (c : Char) : Bool :=
  c == '.' || c == ',' || c == ';' || c == ':'

/-- The `while text and text[-1] in ".,;:"` trimming loop: remove the
maximal run of trailing punctuation characters. -/
def strip_trailing_punct (s : String) : String :=
  String.mk (s.data.reverse.dropWhile is_trailing_punct).reverse

/-- The text-processing part of `transcribe_and_type`, from the raw
transcript string to the string handed to `type_text` (`none` when no
injection happens): strip whitespace, trim trailing punctuation, strip
whitespace again, inject only when non-empty. -/
def transcribe_and_type (transcript : String) : Option String :=
  let text := py_strip transcript
  let text := if text ≠ "" then py_strip (strip_trailing_punct text) else text
  if text ≠ "" then some text else none

/-- The SilenceTracker invariant: the silence-start timestamp is only
ever set while `has_detected_speech` is true. -/
def silence_inv (s : AsstState) : Prop :=
  s.silence_start_time ≠ none → s.has_detected_speech = true

theorem char_key_pressed_length {pressed : List PKey} {part : String}
    (h : char_key_pressed pressed part = true) : part.length = 1 := by
  simp only [char_key_pressed, List.any_eq_true] at h
  obtain ⟨k, -, hk⟩ := h
  rcases k with m | oc
  · simp at hk
  · rcases oc with - | c
    · simp at hk
    · simp only [beq_iff_eq] at hk
      rw [← hk]
      rfl

theorem is_hotkey_pressed_core_true_iff (parts : List String) (pressed : List PKey)
    (hv : ∀ p ∈ parts, token_valid p = true) :
    ((is_hotkey_pressed_core parts pressed).1 = true ↔
      ∀ p ∈ parts, token_satisfied p pressed = true) := by
  induction parts with
  | nil => simp [is_hotkey_pressed_core]
  | cons part rest ih =>
    have hvp := hv part (List.mem_cons_self part rest)
    have hvr : ∀ p ∈ rest, token_valid p = true := fun p hp => hv p (List.mem_cons_of_mem _ hp)
    have ihr := ih hvr
    simp only [List.forall_mem_cons]
    cases hm : modifier_map part with
    | some mods =>
      by_cases ha : ∃ x ∈ mods, PKey.named x ∈ pressed
      · simp [is_hotkey_pressed_core, hm, token_satisfied, ha, ihr]
      · simp [is_hotkey_pressed_core, hm, token_satisfied, ha]
    | none =>
      cases hs : special_key_map part with
      | some k =>
        by_cases hc : PKey.named k ∈ pressed
        · simp [is_hotkey_pressed_core, hm, hs, token_satisfied, hc, ihr]
        · simp [is_hotkey_pressed_core, hm, hs, token_satisfied, hc]
      | none =>
        have hlen : part.length = 1 := by
          have h := hvp
          simp only [token_valid, hm, hs] at h
          simpa using h
        cases hc : char_key_pressed pressed part with
        | true => simp [is_hotkey_pressed_core, hm, hs, token_satisfied, hlen, hc, ihr]
        | false => simp [is_hotkey_pressed_core, hm, hs, token_satisfied, hlen, hc]

/-- Claim C5 (confirmed): for a hotkey spec of valid tokens the matcher
returns true iff every token's condition holds in the pressed set
(modifier tokens by any concrete side variant, special keys by exact
identifier, single characters by a pressed key carrying that character),
and removing any key that some token needs from a matching set makes the
result false. -/
theorem hotkey_matches_iff_all_tokens (parts : List String) (pressed : List PKey)
    (hv : ∀ p ∈ parts, token_valid p = true) :
    ((is_hotkey_pressed_core parts pressed).1 = true ↔
      ∀ p ∈ parts, token_satisfied p pressed = true) ∧
    (∀ k ∈ pressed,
      (∃ p ∈ parts, token_satisfied p (pressed.erase k) = false) →
      (is_hotkey_pressed_core parts (pressed.erase k)).1 = false) := by
  refine ⟨is_hotkey_pressed_core_true_iff parts pressed hv, ?_⟩
  rintro k - ⟨p, hp, hfail⟩
  cases hres : (is_hotkey_pressed_core parts (pressed.erase k)).1 with
  | false => rfl
  | true =>
    have := (is_hotkey_pressed_core_true_iff parts (pressed.erase k) hv).mp hres p hp
    rw [this] at hfail
    exact absurd hfail (by simp)

theorem hotkey_matches_iff_all_tokens_witness :
    (((is_hotkey_pressed_core ["ctrl", "a"]
        [PKey.named MKey.ctrl_l, PKey.keyCode (some 'a')]).1 = true ↔
      ∀ p ∈ ["ctrl", "a"],
        token_satisfied p [PKey.named MKey.ctrl_l, PKey.keyCode (some 'a')] = true) ∧
    (∀ k ∈ [PKey.named MKey.ctrl_l, PKey.keyCode (some 'a')],
      (∃ p ∈ ["ctrl", "a"],
        token_satisfied p ([PKey.named MKey.ctrl_l, PKey.keyCode (some 'a')].erase k) = false) →
      (is_hotkey_pressed_core ["ctrl", "a"]
        ([PKey.named MKey.ctrl_l, PKey.keyCode (some 'a')].erase k)).1 = false)) :=
  hotkey_matches_iff_all_tokens ["ctrl", "a"]
    [PKey.named MKey.ctrl_l, PKey.keyCode (some 'a')] (by decide)

/-- Claim C6 (counterexample): the claim asserts that a pressed key
reporting the uppercase character satisfies a lowercase configured
token; with configured hotkey `a` and a pressed `KeyCode` whose `char`
is `A`, the matcher returns false, because `key.char == part` compares
the raw reported character against the lowercased token. -/
theorem char_token_case_counterexample :
    (is_hotkey_pressed "a" [PKey.keyCode (some 'A')]).1 = false ∧
    parse_hotkey "a" = ["a"] ∧
    Char.toLower 'A' = 'a' := by decide

/-- Claim C6 (amended): a single-printable-character hotkey token is
satisfied iff some pressed key identifier carries exactly that
character. Only the configured token is lowercased (at parse time); the
pressed key's reported character is compared case-sensitively, so an
uppercase reported character does not satisfy a lowercase token. -/
theorem char_token_exact_match (part : String) (pressed : List PKey)
    (hm : modifier_map part = none) (hs : special_key_map part = none)
    (hlen : part.length = 1) :
    ((is_hotkey_pressed_core [part] pressed).1 = true ↔
      ∃ c, PKey.keyCode (some c) ∈ pressed ∧ String.mk [c] = part) := by
  have h1 : (is_hotkey_pressed_core [part] pressed).1 = char_key_pressed pressed part := by
    cases hc : char_key_pressed pressed part with
    | true => simp [is_hotkey_pressed_core, hm, hs, hlen, hc]
    | false => simp [is_hotkey_pressed_core, hm, hs, hlen, hc]
  rw [h1, char_key_pressed, List.any_eq_true]
  constructor
  · rintro ⟨k, hk, hf⟩
    rcases k with m | oc
    · simp at hf
    · rcases oc with - | c
      · simp at hf
      · exact ⟨c, hk, by simpa [beq_iff_eq] using hf⟩
  · rintro ⟨c, hc, he⟩
    exact ⟨PKey.keyCode (some c), hc, by simp [he]⟩

theorem char_token_exact_match_witness :
    ((is_hotkey_pressed_core ["a"] [PKey.keyCode (some 'a')]).1 = true ↔
      ∃ c, PKey.keyCode (some c) ∈ [PKey.keyCode (some 'a')] ∧ String.mk [c] = "a") :=
  char_token_exact_match "a" [PKey.keyCode (some 'a')] (by decide) (by decide) (by decide)

/-- Claim C7 (confirmed): a hotkey spec containing an invalid token
(neither modifier, special key, nor single character) never matches, for
any pressed-key set, and whenever the matcher reaches the invalid token
(all tokens before it satisfied) it surfaces the configuration warning.
The matcher is a total function: the invalid token is a recoverable
configuration case, not a fatal error. -/
theorem invalid_token_fails_closed (xs ys : List String) (bad : String)
    (pressed : List PKey) (hbad : token_valid bad = false) :
    (is_hotkey_pressed_core (xs ++ bad :: ys) pressed).1 = false ∧
    ((∀ p ∈ xs, token_satisfied p pressed = true) →
      (is_hotkey_pressed_core (xs ++ bad :: ys) pressed).2 ≠ []) := by
  have hbm : modifier_map bad = none := by
    cases h : modifier_map bad with
    | none => rfl
    | some v => rw [token_valid, h] at hbad; simp at hbad
  have hbs : special_key_map bad = none := by
    cases h : special_key_map bad with
    | none => rfl
    | some v => rw [token_valid, h] at hbad; simp at hbad
  have hbl : (bad.length == 1) = false := by
    cases h : bad.length == 1 with
    | false => rfl
    | true => rw [token_valid, h] at hbad; simp at hbad
  induction xs with
  | nil =>
    constructor
    · simp [is_hotkey_pressed_core, hbm, hbs, hbl]
    · intro _
      simp [is_hotkey_pressed_core, hbm, hbs, hbl]
  | cons x xs ih =>
    constructor
    · cases hm : modifier_map x with
      | some mods =>
        by_cases ha : ∃ a ∈ mods, PKey.named a ∈ pressed
        · simpa [is_hotkey_pressed_core, hm, ha] using ih.1
        · simp [is_hotkey_pressed_core, hm, ha]
      | none =>
        cases hs : special_key_map x with
        | some k =>
          by_cases hc : PKey.named k ∈ pressed
          · simpa [is_hotkey_pressed_core, hm, hs, hc] using ih.1
          · simp [is_hotkey_pressed_core, hm, hs, hc]
        | none =>
          by_cases hl : x.length = 1
          · cases hc : char_key_pressed pressed x with
            | true => simpa [is_hotkey_pressed_core, hm, hs, hl, hc] using ih.1
            | false => simp [is_hotkey_pressed_core, hm, hs, hl, hc]
          · simp [is_hotkey_pressed_core, hm, hs, hl]
    · intro hall
      have hx : token_satisfied x pressed = true := hall x (List.mem_cons_self _ _)
      have hrest : ∀ p ∈ xs, token_satisfied p pressed = true :=
        fun p hp => hall p (List.mem_cons_of_mem _ hp)
      cases hm : modifier_map x with
      | some mods =>
        have ha : ∃ a ∈ mods, PKey.named a ∈ pressed := by
          simpa [token_satisfied, hm] using hx
        simpa [is_hotkey_pressed_core, hm, ha] using ih.2 hrest
      | none =>
        cases hs : special_key_map x with
        | some k =>
          have hc : PKey.named k ∈ pressed := by
            simpa [token_satisfied, hm, hs] using hx
          simpa [is_hotkey_pressed_core, hm, hs, hc] using ih.2 hrest
        | none =>
          have hc : char_key_pressed pressed x = true := by
            simpa [token_satisfied, hm, hs] using hx
          have hl : x.length = 1 := char_key_pressed_length hc
          simpa [is_hotkey_pressed_core, hm, hs, hl, hc] using ih.2 hrest

theorem invalid_token_fails_closed_witness :
    (is_hotkey_pressed_core (["ctrl"] ++ "bogus" :: []) [PKey.named MKey.ctrl_l]).1 = false ∧
    ((∀ p ∈ ["ctrl"], token_satisfied p [PKey.named MKey.ctrl_l] = true) →
      (is_hotkey_pressed_core (["ctrl"] ++ "bogus" :: []) [PKey.named MKey.ctrl_l]).2 ≠ []) :=
  invalid_token_fails_closed ["ctrl"] [] "bogus" [PKey.named MKey.ctrl_l] (by decide)

theorem audio_callback_not_recording (cfg : Config) (s : AsstState) (f : Frame)
    (t : ℚ) (h : s.is_recording = false) : audio_callback cfg t s f = s := by
  simp [audio_callback, h]

/-- Claim C8 (confirmed): an audio frame arriving while the session is
not recording leaves the whole session state unchanged — nothing is
buffered, and the silence timer, speech flag and transcription flag keep
their values. -/
theorem frames_ignored_when_not_recording (cfg : Config) (s : AsstState)
    (f : Frame) (t : ℚ) (h : s.is_recording = false) :
    audio_callback cfg t s f = s :=
  audio_callback_not_recording cfg s f t h

theorem frames_ignored_when_not_recording_witness :
    audio_callback ⟨500, 1⟩ 2 ⟨false, [], none, none, false, false⟩ [900] =
      ⟨false, [], none, none, false, false⟩ :=
  frames_ignored_when_not_recording ⟨500, 1⟩ ⟨false, [], none, none, false, false⟩ [900] 2 rfl

unseal Rat.add Rat.mul Rat.inv Rat.sub in
/-- Claim C10 (counterexample): the claim asserts a frame is silent iff
the mean absolute amplitude of its samples is strictly below the
threshold; numpy's int16 `np.abs` wraps -32768 to -32768, so the
reachable full-scale negative frame `[-32768]` is classified silent at
threshold 500 although its mean absolute amplitude is 32768, which is
not below 500. -/
theorem int16_wrap_silent_counterexample :
    is_silent 500 [-32768] = true ∧
    true_mean_abs [-32768] = 32768 ∧ ¬((32768 : ℚ) < 500) := by decide

theorem int16_abs_eq_abs {x : ℤ} (h1 : -32768 < x) (h2 : x ≤ 32767) :
    int16_abs x = |x| := by
  rcases abs_cases x with ⟨he, hx⟩ | ⟨he, hx⟩ <;> simp only [int16_abs, he] <;> omega

/-- Claim C10 (amended): a frame is classified silent iff the mean of
the int16-wrapped absolute values of its samples (numpy's
dtype-preserving `np.abs`, which maps -32768 to -32768) is strictly
below the configured threshold, so a frame whose computed mean exactly
equals the threshold is classified as non-silent; and on any frame
whose samples avoid the full-scale negative value -32768 the wrapped
absolute values coincide with the true absolute values, so there the
original strict mean-absolute-amplitude reading holds verbatim. -/
theorem is_silent_strict_threshold (threshold : ℤ) (samples : Frame)
    (h : samples ≠ []) :
    (is_silent threshold samples = true ↔ mean_abs samples < (threshold : ℚ)) ∧
    (mean_abs samples = (threshold : ℚ) → is_silent threshold samples = false) ∧
    ((∀ x ∈ samples, -32768 < x ∧ x ≤ 32767) →
      mean_abs samples = true_mean_abs samples) := by
  have hne : samples.isEmpty = false := by
    cases samples with
    | nil => exact absurd rfl h
    | cons a l => rfl
  refine ⟨?_, ?_, ?_⟩
  · simp [is_silent, hne]
  · intro heq
    simp [is_silent, hne, heq]
  · intro hall
    have hmap : samples.map int16_abs = samples.map fun x => |x| :=
      List.map_congr_left fun x hx => int16_abs_eq_abs (hall x hx).1 (hall x hx).2
    unfold mean_abs true_mean_abs
    rw [hmap]

unseal Rat.add Rat.mul Rat.inv Rat.sub in
theorem is_silent_strict_threshold_witness :
    (is_silent 500 [500] = true ↔ mean_abs [500] < (500 : ℚ)) ∧
    (mean_abs [500] = (500 : ℚ) → is_silent 500 [500] = false) ∧
    ((∀ x ∈ ([500] : Frame), -32768 < x ∧ x ≤ 32767) →
      mean_abs [500] = true_mean_abs [500]) :=
  is_silent_strict_threshold 500 [500] (by decide)

/-- Claim C9 (counterexample): the claim asserts the injected string
equals the transcript after trailing-punctuation trimming with no other
alteration; on transcript `hi .` the trailing-punctuation trim yields
`hi ` (the trailing space is not punctuation) yet the code injects `hi`,
because it also strips whitespace before and after the trimming loop. -/
theorem injected_not_just_punct_trimmed :
    transcribe_and_type "hi ." = some "hi" ∧
    strip_trailing_punct "hi ." = "hi " ∧
    ("hi" : String) ≠ "hi " := by decide

/-- Claim C9 (amended): the string handed to the injection collaborator
equals the transcript after whitespace stripping, then
trailing-punctuation trimming, then a final whitespace strip; injection
is requested only when that result is non-empty. -/
theorem injected_text_characterization (transcript : String) :
    (transcribe_and_type transcript =
      if py_strip (strip_trailing_punct (py_strip transcript)) = "" then none
      else some (py_strip (strip_trailing_punct (py_strip transcript)))) ∧
    (∀ t, transcribe_and_type transcript = some t → t ≠ "") := by
  have key : transcribe_and_type transcript =
      if py_strip (strip_trailing_punct (py_strip transcript)) = "" then none
      else some (py_strip (strip_trailing_punct (py_strip transcript))) := by
    by_cases h : py_strip transcript = ""
    · have e1 : strip_trailing_punct "" = "" := rfl
      have e2 : py_strip "" = "" := rfl
      simp [transcribe_and_type, h, e1, e2]
    · simp [transcribe_and_type, h]
  refine ⟨key, ?_⟩
  intro t ht
  rw [key] at ht
  by_cases h : py_strip (strip_trailing_punct (py_strip transcript)) = ""
  · rw [if_pos h] at ht
    exact absurd ht (by simp)
  · rw [if_neg h] at ht
    have : t = py_strip (strip_trailing_punct (py_strip transcript)) := by
      injection ht.symm
    rw [this]
    exact h

theorem injected_text_characterization_witness : ("hi" : String) ≠ "" :=
  (injected_text_characterization "hi .").2 "hi" (by decide)

/-- Claim C1 (code bug): on a manual stop — the toggle pressed while
recording — `toggle_recording` calls `stop_recording_and_transcribe`,
which only clears `is_recording` and never sets `should_transcribe`
despite its name and docstring. The run loop hands frames to
transcription only when `should_transcribe` is set, so the controller
loop iteration passes nothing to the transcription step, its state is
unchanged, and subsequent audio frames are ignored: the accumulated
buffer is silently dropped, contradicting the claim (and the spec) that
the buffer is handed to transcription regardless of length. -/
theorem manual_stop_never_reaches_transcription (cfg : Config) (s : AsstState)
    (h1 : s.is_recording = true) (h2 : s.should_transcribe = false) :
    (∀ now, toggle_recording now s = stop_recording_and_transcribe s) ∧
    (stop_recording_and_transcribe s).is_recording = false ∧
    (stop_recording_and_transcribe s).audio_frames = s.audio_frames ∧
    (stop_recording_and_transcribe s).should_transcribe = false ∧
    (loop_iteration (stop_recording_and_transcribe s)).2 = none ∧
    (loop_iteration (stop_recording_and_transcribe s)).1 = stop_recording_and_transcribe s ∧
    (∀ f t, audio_callback cfg t (stop_recording_and_transcribe s) f =
      stop_recording_and_transcribe s) := by
  have hstop : stop_recording_and_transcribe s = { s with is_recording := false } := by
    simp [stop_recording_and_transcribe, h1]
  refine ⟨?_, ?_, ?_, ?_, ?_, ?_, ?_⟩
  · intro now
    simp [toggle_recording, h1]
  · rw [hstop]
  · rw [hstop]
  · rw [hstop]; exact h2
  · rw [hstop]; simp [loop_iteration, h2]
  · rw [hstop]; simp [loop_iteration, h2]
  · intro f t
    exact audio_callback_not_recording cfg _ f t (by rw [hstop])

theorem manual_stop_never_reaches_transcription_witness :
    (∀ now, toggle_recording now ⟨true, [[7]], some 0, none, true, false⟩ =
      stop_recording_and_transcribe ⟨true, [[7]], some 0, none, true, false⟩) ∧
    (stop_recording_and_transcribe ⟨true, [[7]], some 0, none, true, false⟩).is_recording = false ∧
    (stop_recording_and_transcribe ⟨true, [[7]], some 0, none, true, false⟩).audio_frames =
      (⟨true, [[7]], some 0, none, true, false⟩ : AsstState).audio_frames ∧
    (stop_recording_and_transcribe ⟨true, [[7]], some 0, none, true, false⟩).should_transcribe = false ∧
    (loop_iteration (stop_recording_and_transcribe ⟨true, [[7]], some 0, none, true, false⟩)).2 = none ∧
    (loop_iteration (stop_recording_and_transcribe ⟨true, [[7]], some 0, none, true, false⟩)).1 =
      stop_recording_and_transcribe ⟨true, [[7]], some 0, none, true, false⟩ ∧
    (∀ f t, audio_callback ⟨500, 1⟩ t
        (stop_recording_and_transcribe ⟨true, [[7]], some 0, none, true, false⟩) f =
      stop_recording_and_transcribe ⟨true, [[7]], some 0, none, true, false⟩) :=
  manual_stop_never_reaches_transcription ⟨500, 1⟩
    ⟨true, [[7]], some 0, none, true, false⟩ rfl rfl

theorem run_callbacks_cons (cfg : Config) (s : AsstState) (p : Frame × ℚ)
    (ps : List (Frame × ℚ)) :
    run_callbacks cfg s (p :: ps) = run_callbacks cfg (audio_callback cfg p.2 s p.1) ps := rfl

theorem run_silent_no_speech (cfg : Config) (frames : List (Frame × ℚ)) :
    ∀ s : AsstState, s.has_detected_speech = false →
    (∀ p ∈ frames, is_silent cfg.SILENCE_THRESHOLD p.1 = true) →
    (run_callbacks cfg s frames).has_detected_speech = false ∧
    (run_callbacks cfg s frames).should_transcribe = s.should_transcribe ∧
    (run_callbacks cfg s frames).is_recording = s.is_recording ∧
    (run_callbacks cfg s frames).silence_start_time = s.silence_start_time := by
  induction frames with
  | nil => intro s h _; exact ⟨h, rfl, rfl, rfl⟩
  | cons p ps ih =>
    intro s hsp hall
    have hp := hall p (List.mem_cons_self _ _)
    have hstep : (audio_callback cfg p.2 s p.1).has_detected_speech = false ∧
        (audio_callback cfg p.2 s p.1).should_transcribe = s.should_transcribe ∧
        (audio_callback cfg p.2 s p.1).is_recording = s.is_recording ∧
        (audio_callback cfg p.2 s p.1).silence_start_time = s.silence_start_time := by
      cases hrec : s.is_recording with
      | false => simp [audio_callback, hrec, hsp]
      | true => simp [audio_callback, hrec, hp, hsp]
    obtain ⟨h1, h2, h3, h4⟩ := ih (audio_callback cfg p.2 s p.1) hstep.1
      (fun q hq => hall q (List.mem_cons_of_mem _ hq))
    rw [run_callbacks_cons]
    exact ⟨h1, h2.trans hstep.2.1, h3.trans hstep.2.2.1, h4.trans hstep.2.2.2⟩

/-- Claim C3 (confirmed): session start resets the silence timer and the
speech flag, every audio-frame step preserves the invariant that the
silence-start timestamp is set only while speech has been detected, and
a run of frames that are all silent from a no-speech-yet state never
sets `should_transcribe` (the session never auto-transitions to ready
without prior speech). -/
theorem silence_timer_requires_speech (cfg : Config) :
    (∀ s now, silence_inv (start_recording now s) ∧
      (start_recording now s).silence_start_time = none ∧
      (start_recording now s).has_detected_speech = false) ∧
    (∀ s f t, silence_inv s → silence_inv (audio_callback cfg t s f)) ∧
    (∀ (s : AsstState) (frames : List (Frame × ℚ)), s.has_detected_speech = false →
      (∀ p ∈ frames, is_silent cfg.SILENCE_THRESHOLD p.1 = true) →
      (run_callbacks cfg s frames).should_transcribe = s.should_transcribe ∧
      (run_callbacks cfg s frames).has_detected_speech = false) := by
  refine ⟨?_, ?_, ?_⟩
  · intro s now
    refine ⟨?_, rfl, rfl⟩
    intro h
    exact absurd rfl h
  · intro s f t hinv
    cases hrec : s.is_recording with
    | false => rw [audio_callback_not_recording cfg s f t hrec]; exact hinv
    | true =>
      cases hsil : is_silent cfg.SILENCE_THRESHOLD f with
      | false =>
        intro h
        simp [audio_callback, hrec, hsil]
      | true =>
        cases hsp : s.has_detected_speech with
        | false =>
          have hnone : s.silence_start_time = none := by
            by_contra hne
            rw [hinv hne] at hsp
            exact absurd hsp (by simp)
          intro h
          simp [audio_callback, hrec, hsil, hsp, hnone] at h
        | true =>
          cases hst : s.silence_start_time with
          | none =>
            intro _
            simp [audio_callback, hrec, hsil, hsp, hst]
          | some t0 =>
            by_cases hd : cfg.SILENCE_DURATION ≤ t - t0
            · intro _
              simp [audio_callback, hrec, hsil, hsp, hst, hd]
            · intro _
              simp [audio_callback, hrec, hsil, hsp, hst, hd]
  · intro s frames hsp hall
    obtain ⟨h1, h2, -, -⟩ := run_silent_no_speech cfg frames s hsp hall
    exact ⟨h2, h1⟩

unseal Rat.add Rat.mul Rat.inv Rat.sub in
theorem silence_timer_requires_speech_witness :
    silence_inv (audio_callback ⟨500, 1⟩ 2 ⟨true, [], some 0, some 1, true, false⟩ [0]) ∧
    ((run_callbacks ⟨500, 1⟩ ⟨true, [], some 0, none, false, false⟩
        [([0], 1), ([0], 2), ([0], 3)]).should_transcribe =
      (⟨true, [], some 0, none, false, false⟩ : AsstState).should_transcribe ∧
      (run_callbacks ⟨500, 1⟩ ⟨true, [], some 0, none, false, false⟩
        [([0], 1), ([0], 2), ([0], 3)]).has_detected_speech = false) :=
  ⟨(silence_timer_requires_speech ⟨500, 1⟩).2.1
      ⟨true, [], some 0, some 1, true, false⟩ [0] 2 (fun _ => rfl),
    (silence_timer_requires_speech ⟨500, 1⟩).2.2
      ⟨true, [], some 0, none, false, false⟩ [([0], 1), ([0], 2), ([0], 3)] rfl (by decide)⟩

theorem callback_nonsilent (cfg : Config) (s : AsstState) (f : Frame) (t : ℚ)
    (hrec : s.is_recording = true) (hf : is_silent cfg.SILENCE_THRESHOLD f = false) :
    audio_callback cfg t s f =
      { s with audio_frames := s.audio_frames ++ [f],
               silence_start_time := none, has_detected_speech := true } := by
  simp [audio_callback, hrec, hf]

theorem run_nonsilent (cfg : Config) (frames : List (Frame × ℚ)) :
    ∀ s : AsstState, s.is_recording = true →
    (∀ p ∈ frames, is_silent cfg.SILENCE_THRESHOLD p.1 = false) →
    (run_callbacks cfg s frames).is_recording = true ∧
    (run_callbacks cfg s frames).should_transcribe = s.should_transcribe ∧
    (frames = [] → run_callbacks cfg s frames = s) ∧
    (frames ≠ [] → (run_callbacks cfg s frames).has_detected_speech = true ∧
      (run_callbacks cfg s frames).silence_start_time = none) := by
  induction frames with
  | nil =>
    intro s hrec _
    exact ⟨hrec, rfl, fun _ => rfl, fun h => absurd rfl h⟩
  | cons p ps ih =>
    intro s hrec hall
    have hp := hall p (List.mem_cons_self _ _)
    have hstep := callback_nonsilent cfg s p.1 p.2 hrec hp
    have hrec' : (audio_callback cfg p.2 s p.1).is_recording = true := by
      rw [hstep]; exact hrec
    obtain ⟨h1, h2, h3, h4⟩ := ih (audio_callback cfg p.2 s p.1) hrec'
      (fun q hq => hall q (List.mem_cons_of_mem _ hq))
    rw [run_callbacks_cons]
    refine ⟨h1, ?_, fun h => absurd h (by simp), fun _ => ?_⟩
    · rw [h2, hstep]
    · cases ps with
      | nil =>
        rw [h3 rfl, hstep]
        exact ⟨rfl, rfl⟩
      | cons q qs => exact h4 (by simp)

theorem callback_silent_sets_timer (cfg : Config) (s : AsstState) (f : Frame) (t : ℚ)
    (hrec : s.is_recording = true) (hf : is_silent cfg.SILENCE_THRESHOLD f = true)
    (hsp : s.has_detected_speech = true) (hst : s.silence_start_time = none) :
    audio_callback cfg t s f =
      { s with audio_frames := s.audio_frames ++ [f], silence_start_time := some t } := by
  simp [audio_callback, hrec, hf, hsp, hst]

theorem run_silent_timer_below (cfg : Config) (t1 : ℚ) (frames : List (Frame × ℚ)) :
    ∀ s : AsstState, s.is_recording = true → s.has_detected_speech = true →
    s.silence_start_time = some t1 →
    (∀ p ∈ frames, is_silent cfg.SILENCE_THRESHOLD p.1 = true ∧
      p.2 - t1 < cfg.SILENCE_DURATION) →
    (run_callbacks cfg s frames).is_recording = true ∧
    (run_callbacks cfg s frames).should_transcribe = s.should_transcribe ∧
    (run_callbacks cfg s frames).has_detected_speech = true ∧
    (run_callbacks cfg s frames).silence_start_time = some t1 := by
  induction frames with
  | nil => intro s hrec hsp hst _; exact ⟨hrec, rfl, hsp, hst⟩
  | cons p ps ih =>
    intro s hrec hsp hst hall
    obtain ⟨hp, hplt⟩ := hall p (List.mem_cons_self _ _)
    have hstep : audio_callback cfg p.2 s p.1 =
        { s with audio_frames := s.audio_frames ++ [p.1] } := by
      simp [audio_callback, hrec, hp, hsp, hst, not_le.mpr hplt]
    obtain ⟨h1, h2, h3, h4⟩ := ih (audio_callback cfg p.2 s p.1)
      (by rw [hstep]; exact hrec) (by rw [hstep]; exact hsp) (by rw [hstep]; exact hst)
      (fun q hq => hall q (List.mem_cons_of_mem _ hq))
    rw [run_callbacks_cons]
    exact ⟨h1, by rw [h2, hstep], h3, h4⟩

theorem callback_silence_timeout (cfg : Config) (s : AsstState) (f : Frame)
    (t t1 : ℚ) (hrec : s.is_recording = true)
    (hf : is_silent cfg.SILENCE_THRESHOLD f = true)
    (hsp : s.has_detected_speech = true) (hst : s.silence_start_time = some t1)
    (hd : cfg.SILENCE_DURATION ≤ t - t1) :
    audio_callback cfg t s f =
      { s with audio_frames := s.audio_frames ++ [f],
               should_transcribe := true, is_recording := false } := by
  simp [audio_callback, hrec, hf, hsp, hst, hd]

/-- Claim C4 (confirmed): for a frame sequence of silent frames, then at
least one non-silent frame, then trailing silent frames, the session
keeps recording through the first trailing silent frame (which sets the
silence-start timestamp to its arrival time) and through every trailing
silent frame whose elapsed time since that timestamp is below the
configured duration; it transitions to ready-to-transcribe exactly at
the first trailing silent frame whose elapsed time reaches the
configured duration, and at no earlier frame. A non-silent frame always
clears the silence-start timestamp. -/
theorem silence_timeout_transition_exact (cfg : Config) (s0 : AsstState)
    (ns ms vs : List (Frame × ℚ)) (f1 : Frame) (t1 : ℚ) (u : Frame) (tu : ℚ)
    (hrec : s0.is_recording = true) (hsp : s0.has_detected_speech = false)
    (_hst : s0.silence_start_time = none) (hflag : s0.should_transcribe = false)
    (hns : ∀ p ∈ ns, is_silent cfg.SILENCE_THRESHOLD p.1 = true)
    (hms : ∀ p ∈ ms, is_silent cfg.SILENCE_THRESHOLD p.1 = false) (hmne : ms ≠ [])
    (hf1 : is_silent cfg.SILENCE_THRESHOLD f1 = true)
    (hvs : ∀ p ∈ vs, is_silent cfg.SILENCE_THRESHOLD p.1 = true ∧
      p.2 - t1 < cfg.SILENCE_DURATION)
    (hu : is_silent cfg.SILENCE_THRESHOLD u = true)
    (htu : cfg.SILENCE_DURATION ≤ tu - t1) :
    ((run_callbacks cfg s0 (ns ++ ms ++ ((f1, t1) :: vs))).should_transcribe = false ∧
     (run_callbacks cfg s0 (ns ++ ms ++ ((f1, t1) :: vs))).is_recording = true ∧
     (run_callbacks cfg s0 (ns ++ ms ++ ((f1, t1) :: vs))).silence_start_time = some t1) ∧
    (audio_callback cfg tu (run_callbacks cfg s0 (ns ++ ms ++ ((f1, t1) :: vs))) u).should_transcribe = true ∧
    (audio_callback cfg tu (run_callbacks cfg s0 (ns ++ ms ++ ((f1, t1) :: vs))) u).is_recording = false ∧
    (∀ s f t, s.is_recording = true → is_silent cfg.SILENCE_THRESHOLD f = false →
      (audio_callback cfg t s f).silence_start_time = none) := by
  have hsplit : run_callbacks cfg s0 (ns ++ ms ++ ((f1, t1) :: vs)) =
      run_callbacks cfg (run_callbacks cfg (run_callbacks cfg s0 ns) ms) ((f1, t1) :: vs) := by
    simp [run_callbacks, List.foldl_append]
  obtain ⟨hA1, hA2, hA3, hA4⟩ := run_silent_no_speech cfg ns s0 hsp hns
  have hArec : (run_callbacks cfg s0 ns).is_recording = true := by rw [hA3]; exact hrec
  obtain ⟨hB1, hB2, -, hB4⟩ := run_nonsilent cfg ms (run_callbacks cfg s0 ns) hArec hms
  obtain ⟨hB4a, hB4b⟩ := hB4 hmne
  have sB := run_callbacks cfg (run_callbacks cfg s0 ns) ms
  have hCstep := callback_silent_sets_timer cfg
    (run_callbacks cfg (run_callbacks cfg s0 ns) ms) f1 t1 hB1 hf1 hB4a hB4b
  have hCrec : (audio_callback cfg t1 (run_callbacks cfg (run_callbacks cfg s0 ns) ms) f1).is_recording = true := by
    rw [hCstep]; exact hB1
  have hCsp : (audio_callback cfg t1 (run_callbacks cfg (run_callbacks cfg s0 ns) ms) f1).has_detected_speech = true := by
    rw [hCstep]; exact hB4a
  have hCst : (audio_callback cfg t1 (run_callbacks cfg (run_callbacks cfg s0 ns) ms) f1).silence_start_time = some t1 := by
    rw [hCstep]
  have hCflag : (audio_callback cfg t1 (run_callbacks cfg (run_callbacks cfg s0 ns) ms) f1).should_transcribe = false := by
    rw [hCstep]
    show (run_callbacks cfg (run_callbacks cfg s0 ns) ms).should_transcribe = false
    rw [hB2, hA2]
    exact hflag
  obtain ⟨hD1, hD2, hD3, hD4⟩ := run_silent_timer_below cfg t1 vs
    (audio_callback cfg t1 (run_callbacks cfg (run_callbacks cfg s0 ns) ms) f1)
    hCrec hCsp hCst hvs
  have hDrun : run_callbacks cfg (run_callbacks cfg (run_callbacks cfg s0 ns) ms) ((f1, t1) :: vs) =
      run_callbacks cfg (audio_callback cfg t1 (run_callbacks cfg (run_callbacks cfg s0 ns) ms) f1) vs :=
    run_callbacks_cons cfg _ (f1, t1) vs
  have hfinal := callback_silence_timeout cfg
    (run_callbacks cfg (audio_callback cfg t1 (run_callbacks cfg (run_callbacks cfg s0 ns) ms) f1) vs)
    u tu t1 hD1 hu hD3 hD4 htu
  refine ⟨⟨?_, ?_, ?_⟩, ?_, ?_, ?_⟩
  · rw [hsplit, hDrun, hD2, hCflag]
  · rw [hsplit, hDrun]; exact hD1
  · rw [hsplit, hDrun]; exact hD4
  · rw [hsplit, hDrun, hfinal]
  · rw [hsplit, hDrun, hfinal]
  · intro s f t hr hf
    rw [callback_nonsilent cfg s f t hr hf]

unseal Rat.add Rat.mul Rat.inv Rat.sub in
theorem silence_timeout_transition_exact_witness :
    ((run_callbacks ⟨500, 1⟩ ⟨true, [], some 0, none, false, false⟩
        ([([0], 1)] ++ [([800], 2)] ++ (([0], 3) :: [([0], 7/2)]))).should_transcribe = false ∧
     (run_callbacks ⟨500, 1⟩ ⟨true, [], some 0, none, false, false⟩
        ([([0], 1)] ++ [([800], 2)] ++ (([0], 3) :: [([0], 7/2)]))).is_recording = true ∧
     (run_callbacks ⟨500, 1⟩ ⟨true, [], some 0, none, false, false⟩
        ([([0], 1)] ++ [([800], 2)] ++ (([0], 3) :: [([0], 7/2)]))).silence_start_time = some 3) ∧
    (audio_callback ⟨500, 1⟩ 4 (run_callbacks ⟨500, 1⟩ ⟨true, [], some 0, none, false, false⟩
        ([([0], 1)] ++ [([800], 2)] ++ (([0], 3) :: [([0], 7/2)]))) [0]).should_transcribe = true ∧
    (audio_callback ⟨500, 1⟩ 4 (run_callbacks ⟨500, 1⟩ ⟨true, [], some 0, none, false, false⟩
        ([([0], 1)] ++ [([800], 2)] ++ (([0], 3) :: [([0], 7/2)]))) [0]).is_recording = false ∧
    (∀ s f t, s.is_recording = true → is_silent (⟨500, 1⟩ : Config).SILENCE_THRESHOLD f = false →
      (audio_callback ⟨500, 1⟩ t s f).silence_start_time = none) :=
  silence_timeout_transition_exact ⟨500, 1⟩ ⟨true, [], some 0, none, false, false⟩
    [([0], 1)] [([800], 2)] [([0], 7/2)] [0] 3 [0] 4
    rfl rfl rfl rfl (by decide) (by decide) (by decide) (by decide) (by decide)
    (by decide) (by decide)

theorem step_armed_no_fire (hotkey : List String) (s : TrackerState) (e : KeyEvent)
    (h : s.hotkey_pressed = true) : (stepTracker hotkey s e).2 = false := by
  cases e with
  | press k => simp [stepTracker, h]
  | release k =>
    by_cases hc : is_ctrl_variant k = true
    · simp [stepTracker, hc]
    · simp [stepTracker, hc]

theorem step_armed_persist (hotkey : List String) (s : TrackerState) (e : KeyEvent)
    (h : s.hotkey_pressed = true) (hc : is_ctrl_release e = false) :
    (stepTracker hotkey s e).1.hotkey_pressed = true := by
  cases e with
  | press k => simp [stepTracker, h]
  | release k =>
    have hc' : is_ctrl_variant k = false := by simpa [is_ctrl_release] using hc
    simp [stepTracker, hc', h]

theorem step_fired_armed (hotkey : List String) (s : TrackerState) (e : KeyEvent)
    (h : (stepTracker hotkey s e).2 = true) :
    (stepTracker hotkey s e).1.hotkey_pressed = true := by
  cases e with
  | press k =>
    by_cases hcond : ((is_hotkey_pressed_core hotkey (s.pressed_keys.insert k)).1 &&
        !s.hotkey_pressed) = true
    · simp [stepTracker, hcond]
    · rw [Bool.not_eq_true] at hcond
      simp [stepTracker, hcond] at h
  | release k =>
    by_cases hc : is_ctrl_variant k = true
    · simp [stepTracker, hc] at h
    · rw [Bool.not_eq_true] at hc
      simp [stepTracker, hc] at h

theorem armed_fire_needs_ctrl_release (hotkey : List String) :
    ∀ (evs : List KeyEvent) (s : TrackerState) (j : ℕ),
    s.hotkey_pressed = true → (runFlags hotkey s evs)[j]? = some true →
    ∃ m e, m < j ∧ evs[m]? = some e ∧ is_ctrl_release e = true := by
  intro evs
  induction evs with
  | nil => intro s j _ hj; simp [runFlags] at hj
  | cons e es ih =>
    intro s j harm hj
    simp only [runFlags] at hj
    cases j with
    | zero =>
      rw [List.getElem?_cons_zero] at hj
      rw [step_armed_no_fire hotkey s e harm] at hj
      exact absurd hj (by simp)
    | succ jj =>
      rw [List.getElem?_cons_succ] at hj
      cases hce : is_ctrl_release e with
      | true => exact ⟨0, e, Nat.succ_pos _, by simp, hce⟩
      | false =>
        have harm' := step_armed_persist hotkey s e harm hce
        obtain ⟨m, e', hm, he', hc'⟩ := ih (stepTracker hotkey s e).1 jj harm' hj
        exact ⟨m + 1, e', Nat.succ_lt_succ hm, by simpa using he', hc'⟩

theorem fired_at_implies_armed_after (hotkey : List String) :
    ∀ (evs : List KeyEvent) (s : TrackerState) (i : ℕ),
    (runFlags hotkey s evs)[i]? = some true →
    (trackState hotkey s (evs.take (i + 1))).hotkey_pressed = true := by
  intro evs
  induction evs with
  | nil => intro s i h; simp [runFlags] at h
  | cons e es ih =>
    intro s i h
    simp only [runFlags] at h
    cases i with
    | zero =>
      rw [List.getElem?_cons_zero] at h
      have h' : (stepTracker hotkey s e).2 = true := by
        injection h
      simpa [List.take, trackState] using step_fired_armed hotkey s e h'
    | succ ii =>
      rw [List.getElem?_cons_succ] at h
      simpa [List.take, trackState] using ih (stepTracker hotkey s e).1 ii h

theorem runFlags_append (hotkey : List String) (l1 l2 : List KeyEvent) :
    ∀ s, runFlags hotkey s (l1 ++ l2) =
      runFlags hotkey s l1 ++ runFlags hotkey (trackState hotkey s l1) l2 := by
  induction l1 with
  | nil => intro s; simp [runFlags, trackState]
  | cons e es ih => intro s; simp [runFlags, trackState, List.cons_append, ih]

theorem runFlags_length (hotkey : List String) (evs : List KeyEvent) :
    ∀ s, (runFlags hotkey s evs).length = evs.length := by
  induction evs with
  | nil => intro s; rfl
  | cons e es ih => intro s; simp [runFlags, ih]

/-- Claim C2 (confirmed): a press event fires the toggle edge exactly
when, with the pressed key added to the set, the full hotkey matches and
the edge was not already armed, and firing arms the edge; a release
event never fires; a release disarms the edge exactly when the released
key is a concrete ctrl variant, and no other event disarms it; and over
any event trace the edge never fires twice without an intervening
release of a concrete ctrl variant. -/
theorem toggle_edge_semantics (hotkey : List String) :
    (∀ s k, (stepTracker hotkey s (KeyEvent.press k)).2 =
      ((is_hotkey_pressed_core hotkey (s.pressed_keys.insert k)).1 && !s.hotkey_pressed)) ∧
    (∀ s k, (stepTracker hotkey s (KeyEvent.press k)).1.hotkey_pressed =
      (s.hotkey_pressed || (stepTracker hotkey s (KeyEvent.press k)).2)) ∧
    (∀ s k, (stepTracker hotkey s (KeyEvent.release k)).2 = false) ∧
    (∀ s k, (stepTracker hotkey s (KeyEvent.release k)).1.hotkey_pressed =
      (if is_ctrl_variant k then false else s.hotkey_pressed)) ∧
    (∀ (s : TrackerState) (evs : List KeyEvent) (i j : ℕ), i < j →
      (runFlags hotkey s evs)[i]? = some true →
      (runFlags hotkey s evs)[j]? = some true →
      ∃ m e, i < m ∧ m < j ∧ evs[m]? = some e ∧ is_ctrl_release e = true) := by
  refine ⟨?_, ?_, ?_, ?_, ?_⟩
  · intro s k
    by_cases hcond : ((is_hotkey_pressed_core hotkey (s.pressed_keys.insert k)).1 &&
        !s.hotkey_pressed) = true
    · simp [stepTracker, hcond]
    · rw [Bool.not_eq_true] at hcond
      simp [stepTracker, hcond]
  · intro s k
    cases harm : s.hotkey_pressed with
    | true => simp [stepTracker, harm]
    | false =>
      cases hcore : (is_hotkey_pressed_core hotkey (s.pressed_keys.insert k)).1 with
      | true => simp [stepTracker, harm, hcore]
      | false => simp [stepTracker, harm, hcore]
  · intro s k
    by_cases hc : is_ctrl_variant k = true
    · simp [stepTracker, hc]
    · simp [stepTracker, hc]
  · intro s k
    by_cases hc : is_ctrl_variant k = true
    · simp [stepTracker, hc]
    · rw [Bool.not_eq_true] at hc
      simp [stepTracker, hc]
  · intro s evs i j hij hi hj
    have hjlen : j < evs.length := by
      have h1 : j < (runFlags hotkey s evs).length := by
        rcases List.getElem?_eq_some.mp hj with ⟨hlt, -⟩
        exact hlt
      rwa [runFlags_length hotkey evs s] at h1
    have harm : (trackState hotkey s (evs.take (i + 1))).hotkey_pressed = true :=
      fired_at_implies_armed_after hotkey evs s i hi
    have hj' : (runFlags hotkey s (evs.take (i + 1)) ++
        runFlags hotkey (trackState hotkey s (evs.take (i + 1))) (evs.drop (i + 1)))[j]? =
        some true := by
      rw [← runFlags_append, List.take_append_drop]
      exact hj
    have hlen1 : (runFlags hotkey s (evs.take (i + 1))).length = i + 1 := by
      rw [runFlags_length, List.length_take]
      omega
    rw [List.getElem?_append_right (by omega), hlen1] at hj'
    obtain ⟨m, e, hm, he, hc⟩ := armed_fire_needs_ctrl_release hotkey (evs.drop (i + 1))
      (trackState hotkey s (evs.take (i + 1))) (j - (i + 1)) harm hj'
    refine ⟨i + 1 + m, e, by omega, by omega, ?_, hc⟩
    rw [List.getElem?_drop] at he
    exact he

unseal Rat.add Rat.mul Rat.inv Rat.sub in
theorem toggle_edge_semantics_witness :
    ∃ m e, 0 < m ∧ m < 2 ∧
      [KeyEvent.press (PKey.named MKey.ctrl_l), KeyEvent.release (PKey.named MKey.ctrl_l),
        KeyEvent.press (PKey.named MKey.ctrl_l)][m]? = some e ∧
      is_ctrl_release e = true :=
  (toggle_edge_semantics ["ctrl"]).2.2.2.2 ⟨[], false⟩
    [KeyEvent.press (PKey.named MKey.ctrl_l), KeyEvent.release (PKey.named MKey.ctrl_l),
      KeyEvent.press (PKey.named MKey.ctrl_l)] 0 2 (by decide) (by decide) (by decide)

end VoiceTyping
